import Mathlib

/-!
Verification of the transport/streaming substrate of the opencode C++ client.

Strings from the C++ side are modelled as `List Char` (one `Char` per byte),
so that chunk boundaries can fall anywhere.  Each definition is a direct
translation of the corresponding C++ function; the source file and function
are named in its doc comment.
-/

namespace Opencode

/-- Characters of a Lean string literal, used to transcribe C++ string
literals into the `List Char` model. -/
def str (s : String) : List Char := s.data

/-! ## SSE parser (src/transport.cpp, `SSEParser`) -/

/-- Structure `SSEEvent` from include/opencode/transport.hpp: event type, data,
id, and retry interval (0 = not specified). -/
structure SSEEvent where
  event : List Char
  data : List Char
  id : List Char
  retry : Int
deriving DecidableEq, Repr

/-- The freshly-reset pending event (`SSEEvent{}` in C++: empty strings,
`retry = 0`). -/
def emptyEvent : SSEEvent := ⟨[], [], [], 0⟩

/-- Parser state from src/transport.cpp: the carried-over partial line
(`buffer_`) and the pending event being assembled (`current_event_`). -/
structure SSEParser where
  buffer : List Char
  current : SSEEvent
deriving DecidableEq, Repr

/-- A fresh parser (`SSEParser` default constructed / after `reset()`). -/
def initParser : SSEParser := ⟨[], emptyEvent⟩

/-- The line-extraction loop of `SSEParser::feed`: split the buffered text at
each line feed, returning the complete lines (without their terminators) and
the remainder after the last terminator, which stays buffered. -/
def splitLines : List Char → List (List Char) × List Char
  | [] => ([], [])
  | c :: cs =>
    if c = '\n' then
      let r := splitLines cs
      ([] :: r.1, r.2)
    else
      match splitLines cs with
      | ([], rest) => ([], c :: rest)
      | (l :: ls, rest) => ((c :: l) :: ls, rest)

/-- Strip one trailing carriage return, as `feed` does on each extracted line
(`if (!line.empty() && line.back() == '\r') line.pop_back();`). -/
def stripCR : List Char → List Char
  | [] => []
  | ['\r'] => []
  | c :: cs => c :: stripCR cs

/-- Strip one trailing line feed, as `feed` does on the pending data at
dispatch time. -/
def stripNL : List Char → List Char
  | [] => []
  | ['\n'] => []
  | c :: cs => c :: stripNL cs

/-- Translation of `line.find(':')` followed by the substr split: the part before the first
colon, and — when a colon exists — the part after it. -/
def splitAtColon : List Char → List Char × Option (List Char)
  | [] => ([], none)
  | c :: cs =>
    if c = ':' then ([], some cs)
    else
      let r := splitAtColon cs
      (c :: r.1, r.2)

/-- Drop the single optional space after the colon
(`if (value_start < line.size() && line[value_start] == ' ') value_start++;`). -/
def dropOneSpace : List Char → List Char
  | ' ' :: rest => rest
  | v => v

/-- Whitespace recognized by `std::isspace` in the default locale, as skipped
by `std::stoi`. -/
def isCppSpace (c : Char) : Bool :=
  c = ' ' || c = '\t' || c = '\n' || c = '\x0b' || c = '\x0c' || c = '\r'

/-- Value of a decimal digit string. -/
def digitsVal : List Char → Nat → Nat
  | [], acc => acc
  | c :: cs, acc => digitsVal cs (acc * 10 + (c.toNat - '0'.toNat))

/-- Model of `std::stoi`: skip leading whitespace, read an optional sign and a
non-empty run of decimal digits (stopping at the first non-digit), and fail —
the surrounding `try`/`catch` in `feed` treats failure as "ignore" — when no
digit is present or the value does not fit in a 32-bit `int`. -/
def cppStoi (s : List Char) : Option Int :=
  let s1 := s.dropWhile isCppSpace
  let signed : Bool × List Char :=
    match s1 with
    | '-' :: rest => (true, rest)
    | '+' :: rest => (false, rest)
    | rest => (false, rest)
  let digits := signed.2.takeWhile Char.isDigit
  if digits = [] then none
  else
    let v : Int := if signed.1 then -(digitsVal digits 0 : Int) else (digitsVal digits 0 : Int)
    if v < -2147483648 || v > 2147483647 then none else some v

/-- The field dispatch of `SSEParser::feed`: `event` overwrites the pending
type, `data` appends (newline-joined when data is already non-empty), `id`
overwrites, `retry` is parsed with `std::stoi` and ignored when invalid;
unrecognized fields change nothing. -/
def applyField (ev : SSEEvent) (field value : List Char) : SSEEvent :=
  if field = str "event" then { ev with event := value }
  else if field = str "data" then
    { ev with data := if ev.data = [] then value else ev.data ++ '\n' :: value }
  else if field = str "id" then { ev with id := value }
  else if field = str "retry" then
    match cppStoi value with
    | some v => { ev with retry := v }
    | none => ev
  else ev

/-- Dispatch at a blank line: if the pending event has any data or type set,
strip one trailing line feed from the data, emit it and reset; otherwise do
nothing. -/
def dispatchBlank (ev : SSEEvent) : SSEEvent × List SSEEvent :=
  if ev.data ≠ [] ∨ ev.event ≠ [] then
    (emptyEvent, [{ ev with data := stripNL ev.data }])
  else (ev, [])

/-- Processing of one extracted line in `SSEParser::feed`: strip `\r`, treat
a blank line as the dispatch boundary, discard comment lines (leading colon),
otherwise split at the first colon into field and value (a line with no colon
is a field with empty value) and apply the field. -/
def processLine (ev : SSEEvent) (raw : List Char) : SSEEvent × List SSEEvent :=
  let line := stripCR raw
  match line with
  | [] => dispatchBlank ev
  | ':' :: _ => (ev, [])
  | _ =>
    let fv := splitAtColon line
    let value := match fv.2 with
      | some v => dropOneSpace v
      | none => []
    (applyField ev fv.1 value, [])

/-- Fold `processLine` over the extracted lines, concatenating the emitted
events in order. -/
def processLines (ev : SSEEvent) : List (List Char) → SSEEvent × List SSEEvent
  | [] => (ev, [])
  | l :: ls =>
    let r1 := processLine ev l
    let r2 := processLines r1.1 ls
    (r2.1, r1.2 ++ r2.2)

/-- Translation of `SSEParser::feed`: append the chunk to the buffer, process every complete
line, keep the remainder buffered, and return the events emitted by this
call in order. -/
def feed (p : SSEParser) (data : List Char) : SSEParser × List SSEEvent :=
  let lr := splitLines (p.buffer ++ data)
  let er := processLines p.current lr.1
  (⟨lr.2, er.1⟩, er.2)

/-- Feed a sequence of chunks one call at a time, concatenating the emitted
events. -/
def feedAll (p : SSEParser) : List (List Char) → SSEParser × List SSEEvent
  | [] => (p, [])
  | c :: cs =>
    let r1 := feed p c
    let r2 := feedAll r1.1 cs
    (r2.1, r1.2 ++ r2.2)

/-! ## Blocking event stream (src/client.cpp, `EventStream`) -/

/-- The monitor-protected state of `EventStream::Impl`: the FIFO queue of
events and the closed flag. -/
structure EvState (α : Type) where
  queue : List α
  closed : Bool
deriving DecidableEq, Repr

/-- The producer step from `Client::subscribe_events`'s `on_event` lambda:
under the lock, an event is dropped when the stream is already closed and
appended at the back of the queue otherwise. -/
def pushEvent {α : Type} (s : EvState α) (e : α) : EvState α :=
  if s.closed then s else { s with queue := s.queue ++ [e] }

/-- Translation of `EventStream::next` at a moment when its wait condition
(`!events.empty() || closed`) holds: return the end-of-stream sentinel when
the queue is empty (only reachable once closed), otherwise pop and return
the front. -/
def nextEvent {α : Type} (s : EvState α) : Option α × EvState α :=
  match s.queue with
  | [] => (none, s)
  | e :: rest => (some e, { s with queue := rest })

/-- Translation of `EventStream::close`: set the closed flag and wake all
waiters. -/
def closeStream {α : Type} (s : EvState α) : EvState α := { s with closed := true }

/-- Call `next` the given number of times, collecting the returned values in
order. -/
def consume {α : Type} (s : EvState α) : Nat → List (Option α) × EvState α
  | 0 => ([], s)
  | n+1 =>
    let r1 := nextEvent s
    let r2 := consume r1.2 n
    (r1.1 :: r2.1, r2.2)

/-! ## Process supervisor (src/server.cpp, `Server`) -/

/-- Case-insensitive literal match at the head of the input, per
`std::regex::icase`; returns the matched original characters and the rest. -/
def matchLitI : List Char → List Char → Option (List Char × List Char)
  | [], rest => some ([], rest)
  | _ :: _, [] => none
  | p :: ps, c :: cs =>
    if c.toLower = p.toLower then
      match matchLitI ps cs with
      | some (m, rest) => some (c :: m, rest)
      | none => none
    else none

/-- First alternative that matches at the head of the input, tried in the
order the alternation is written in the regex (ECMAScript semantics). -/
def matchAltI (alts : List (List Char)) (s : List Char) :
    Option (List Char × List Char) :=
  match alts with
  | [] => none
  | a :: rest =>
    match matchLitI a s with
    | some r => some r
    | none => matchAltI rest s

/-- Whitespace class `\s` of ECMAScript regexes, restricted to ASCII. -/
def isEcmaSpace (c : Char) : Bool :=
  c = ' ' || c = '\t' || c = '\n' || c = '\x0b' || c = '\x0c' || c = '\r'

/-- Greedy `\s+`: at least one whitespace character, then all following
whitespace (the next token of the pattern starts with a letter, so maximal
munch is exact here). -/
def wsPlus : List Char → Option (List Char)
  | [] => none
  | c :: cs => if isEcmaSpace c then some (cs.dropWhile isEcmaSpace) else none

/-- Subpattern `(https?://[^\s]+)` at the head of the input: the scheme —
keeping the `s` when possible, as the greedy `s?` does — then at least one
non-whitespace character, maximal.  Returns the captured URL text. -/
def matchUrlAt (s : List Char) : Option (List Char) :=
  let afterScheme :=
    match matchLitI (str "https://") s with
    | some r => some r
    | none => matchLitI (str "http://") s
  match afterScheme with
  | none => none
  | some (m, rest) =>
    let tail := rest.takeWhile (fun c => !isEcmaSpace c)
    if tail = [] then none else some (m ++ tail)

/-- The `url_pattern` regex of `Server::spawn`,
`(?:listening|running|started|bound)\s+(?:on|at)\s+(https?://[^\s]+)` with
`icase`, anchored at the head of the input; returns the captured URL. -/
def urlPatternAt (s : List Char) : Option (List Char) :=
  match matchAltI [str "listening", str "running", str "started", str "bound"] s with
  | none => none
  | some (_, r1) =>
    match wsPlus r1 with
    | none => none
    | some r2 =>
      match matchAltI [str "on", str "at"] r2 with
      | none => none
      | some (_, r3) =>
        match wsPlus r3 with
        | none => none
        | some r4 => matchUrlAt r4

/-- Model of `std::regex_search(line, match, url_pattern)`: try the pattern
at each position, leftmost match first; return the captured URL. -/
def urlSearch : List Char → Option (List Char)
  | [] => none
  | c :: cs =>
    match urlPatternAt (c :: cs) with
    | some u => some u
    | none => urlSearch cs

/-- Model of `std::regex_search` with `port_pattern` `:(\d+)`: the first
colon immediately followed by at least one digit; the captured digit run is
maximal.  Returns the captured digits. -/
def portSearch : List Char → Option (List Char)
  | [] => none
  | c :: cs =>
    if c = ':' then
      let ds := cs.takeWhile Char.isDigit
      if ds = [] then portSearch cs else some ds
    else portSearch cs

/-- Head-anchored literal comparison used by the substring test. -/
def startsWithLit : List Char → List Char → Bool
  | [], _ => true
  | _ :: _, [] => false
  | a :: as, b :: bs => a = b && startsWithLit as bs

/-- Model of `std::string::find(needle) != npos` (case-sensitive substring
test). -/
def containsSub (needle : List Char) : List Char → Bool
  | [] => startsWithLit needle []
  | c :: cs => startsWithLit needle (c :: cs) || containsSub needle cs

/-- Decimal rendering of an `int`, as `std::to_string` produces. -/
def intToChars (n : Int) : List Char := (toString n).data

/-- The spawn options relevant to readiness detection
(`ServerOptions::hostname` and `::port`). -/
structure SpawnOpts where
  hostname : List Char
  port : Int
deriving DecidableEq, Repr

/-- Modelled from the spec: the `Process` class (referenced through
opencode/process.hpp) is not among the sources here, only its caller
`Server::spawn`.  Following §4.2, the process's observable behaviour during
startup is a script of observations consumed in order by the readiness
loop: a line read from the output channel, the process found to have exited
(with the exit code the blocking reap then returns), or the startup timeout
elapsing before the next line arrives. -/
inductive SpawnObs
  | line (s : List Char)
  | procExit (code : Int)
  | timeout
deriving DecidableEq, Repr

/-- Which readiness branch of `Server::spawn` fired. -/
inductive ReadyVia
  | urlPattern
  | portToken
deriving DecidableEq, Repr

/-- Outcome of `Server::spawn`'s readiness loop.  `stoiRangeError` models
the uncaught `std::out_of_range` when an announced port does not fit in an
`int`; `stillPolling` marks an exhausted observation script (the real loop
would keep polling). -/
inductive SpawnResult
  | ok (branch : ReadyVia) (url : List Char) (port : Int) (hostname : List Char)
  | exitedDuringStartup (code : Int) (output : List Char)
  | startupTimeout (output : List Char)
  | stoiRangeError (output : List Char)
  | stillPolling (output : List Char)
deriving DecidableEq, Repr

/-- The port-token fallback check in `Server::spawn`: the line contains
`":" + std::to_string(opts.port)` together with one of the substrings
`listen`, `bound`, `server`. -/
def portTokenMatch (port : Int) (l : List Char) : Bool :=
  containsSub (':' :: intToChars port) l &&
    (containsSub (str "listen") l || containsSub (str "bound") l ||
      containsSub (str "server") l)

/-- A line that triggers either readiness branch of the spawn loop. -/
def lineReady (port : Int) (l : List Char) : Bool :=
  (urlSearch l).isSome || portTokenMatch port l

/-- The readiness loop of `Server::spawn` (src/server.cpp), run over a
script of process observations.  Each `line` observation is appended to the
accumulated output and checked first against `url_pattern` — on a match the
detected port is re-extracted from the announced URL via `port_pattern` and
`std::stoi` — and then against the port-token fallback.  A `procExit`
observation makes the loop condition fail, so `spawn` throws the
`ProcessExitedDuringStartup` error carrying the exit code and the
accumulated output; a `timeout` observation makes `spawn` kill the process
and throw the `StartupTimeout` error carrying the accumulated output. -/
def spawnLoop (opts : SpawnOpts) (acc : List Char) : List SpawnObs → SpawnResult
  | [] => SpawnResult.stillPolling acc
  | SpawnObs.timeout :: _ => SpawnResult.startupTimeout acc
  | SpawnObs.procExit code :: _ => SpawnResult.exitedDuringStartup code acc
  | SpawnObs.line l :: rest =>
    let acc2 := acc ++ l
    match urlSearch l with
    | some u =>
      match portSearch u with
      | some ds =>
        match cppStoi ds with
        | some p => SpawnResult.ok ReadyVia.urlPattern u p opts.hostname
        | none => SpawnResult.stoiRangeError acc2
      | none => SpawnResult.ok ReadyVia.urlPattern u opts.port opts.hostname
    | none =>
      if portTokenMatch opts.port l then
        SpawnResult.ok ReadyVia.portToken
          (str "http://" ++ opts.hostname ++ ':' :: intToChars opts.port)
          opts.port opts.hostname
      else spawnLoop opts acc2 rest

/-- Modelled from the spec: lifecycle of the supervised process as seen
through `Process::is_running` / `terminate` / `kill` / `wait` (the `Process`
class is not among the sources).  `running` means `is_running()` returns
true; `exited` that the process has terminated but was not reaped; `reaped`
that a blocking `wait()` collected the exit code (§3: a ProcessHandle is
"destroyed on reap"). -/
inductive ProcPhase
  | running
  | exited (code : Int)
  | reaped (code : Int)
deriving DecidableEq, Repr

/-- Modelled from the spec: a supervised process together with a behaviour
oracle saying whether it exits within the 5-second grace window after the
graceful terminate signal (§4.2 and the §6 stop-signal contract), and the
exit code it reports when it terminates. -/
structure ProcessModel where
  phase : ProcPhase
  exitsInGrace : Bool
  exitCode : Int
deriving DecidableEq, Repr

/-- Process operations `Server::stop` can issue. -/
inductive ProcOp
  | terminate
  | kill
  | wait
deriving DecidableEq, Repr

/-- The `process_` member of a `Server` (`none` after a move). -/
structure ServerState where
  process : Option ProcessModel
deriving DecidableEq, Repr

/-- Translation of `Server::stop` (src/server.cpp): when a process is owned
and running, send the graceful terminate, poll the 5-second grace window
(issuing `kill` when the process is still running at its end) and reap it
with a blocking `wait`; otherwise do nothing.  Returns the new state and the
process operations performed, in order.  The function is total: the C++
body contains no throw and the `Process` calls are modelled as non-throwing
per §4.2 ("idempotent, safe to call repeatedly and from a teardown
path"). -/
def serverStop (s : ServerState) : ServerState × List ProcOp :=
  match s.process with
  | none => (s, [])
  | some pm =>
    if pm.phase = ProcPhase.running then
      ({ process := some { pm with phase := ProcPhase.reaped pm.exitCode } },
        ProcOp.terminate ::
          (if pm.exitsInGrace then [] else [ProcOp.kill]) ++ [ProcOp.wait])
    else (s, [])

/-! ## Duplex transport SSE control (src/transport.cpp, `HttpTransport`) -/

/-- The SSE control state of `HttpTransport::Impl`: the `sse_running_` flag
and whether a worker thread is live (`sse_thread_.joinable()`). -/
structure SSEControl where
  running : Bool
  threadActive : Bool
deriving DecidableEq, Repr

/-- Translation of `HttpTransport::Impl::start_sse`: stop any previous
stream, set `sse_running_`, launch the worker thread, and return `true`
unconditionally — no failure is reported through the return value. -/
def startSSE (_c : SSEControl) (_path : List Char)
    (_headers : List (List Char × List Char)) : SSEControl × Bool :=
  ((⟨true, true⟩ : SSEControl), true)

/-- Outcome of the blocking `sse_client.Get` call in `run_sse`: the httplib
result either succeeds (the stream ended) or carries a transport error
message. -/
inductive ConnOutcome
  | success
  | failure (err : List Char)
deriving DecidableEq, Repr

/-- Callback invocations a streaming worker can make. -/
inductive SSECall
  | onEvent (e : SSEEvent)
  | onError (err : List Char)
  | onClose
deriving DecidableEq, Repr

/-- Translation of `HttpTransport::Impl::run_sse`: every received chunk is
fed through a fresh `SSEParser`, each emitted record invoking `on_event` on
the worker; then — when the stream terminates while `sse_running_` is still
set and the httplib result is an error — `on_error` is invoked; finally
`on_close` is invoked, exactly once, on loop exit for any reason.
`running` is the value of `sse_running_` observed at loop exit. -/
def runSSE (running : Bool) (chunks : List (List Char)) (outcome : ConnOutcome) :
    List SSECall :=
  ((feedAll initParser chunks).2.map SSECall.onEvent) ++
    (if running then
      match outcome with
      | ConnOutcome.failure e => [SSECall.onError e]
      | ConnOutcome.success => []
    else []) ++ [SSECall.onClose]

/-! ## Streaming send coordinator (src/client.cpp, `Client::send_message_streaming`) -/

/-- The decoded `properties.part` object of a pushed record, as far as the
coordinator inspects it: its `sessionID` (defaulted to the empty string when
absent, per `part_json.value("sessionID", "")`) and the rest of the decoded
part, kept abstract. -/
structure PartJson where
  sessionID : List Char
  payload : List Char
deriving DecidableEq, Repr

/-- The JSON payload of a pushed record after `json::parse`: either the
parse throws (`malformed` — the catch-all drops the record) or it yields a
`type` (defaulted to the empty string) and an optional `properties.part`
object. -/
inductive PushData
  | malformed
  | record (type : List Char) (part : Option PartJson)
deriving DecidableEq, Repr

/-- Which of the caller's `StreamOptions` callbacks are set (each is a
possibly-empty `std::function`, tested before being invoked). -/
structure StreamOpts where
  hasOnPart : Bool
  hasOnComplete : Bool
  hasOnError : Bool
deriving DecidableEq, Repr

/-- One delivery from the private SSE subscription's worker: a pushed
record, a transport error, or the close notification. -/
inductive WorkerEvent
  | push (d : PushData)
  | connError (e : List Char)
  | connClose
deriving DecidableEq, Repr

/-- A call to one of the caller's three streaming callbacks. -/
inductive CoordCall
  | onPart (p : PartJson)
  | onComplete (msg : List Char)
  | onError (e : List Char)
deriving DecidableEq, Repr

/-- Result of the blocking `send_message` call issued by the coordinator:
the parsed assistant message (kept abstract), or the thrown exception's
message. -/
inductive UnaryOutcome
  | success (msg : List Char)
  | failure (e : List Char)
deriving DecidableEq, Repr

/-- The `on_event` lambda of `send_message_streaming` (src/client.cpp):
return immediately when `done` is set; drop records whose JSON fails to
parse; a `server.connected` record only signals the handshake; a
`message.part.updated` record carrying a `properties.part` whose
`sessionID` equals the target session invokes the caller's part callback
(when set) with the decoded part; every other record is ignored. -/
def dispatchPush (sid : List Char) (opts : StreamOpts) (done : Bool)
    (d : PushData) : List CoordCall :=
  if done then []
  else
    match d with
    | PushData.malformed => []
    | PushData.record ty part? =>
      if ty = str "server.connected" then []
      else if ty = str "message.part.updated" then
        match part? with
        | some pj =>
          if pj.sessionID = sid ∧ opts.hasOnPart = true then [CoordCall.onPart pj]
          else []
        | none => []
      else []

/-- The `on_error` lambda of `send_message_streaming`: when `done` is not
yet set and the caller registered an error callback, invoke it with the
transport error (the lambda also sets `connected` to unblock the handshake
wait). -/
def dispatchConnError (opts : StreamOpts) (done : Bool) (e : List Char) :
    List CoordCall :=
  if done = false ∧ opts.hasOnError = true then [CoordCall.onError e] else []

/-- Calls made by the subscription worker for a sequence of deliveries at a
fixed value of the `done` flag (the close notification only wakes the
handshake waiter). -/
def workerCalls (sid : List Char) (opts : StreamOpts) (done : Bool) :
    List WorkerEvent → List CoordCall
  | [] => []
  | WorkerEvent.push d :: rest =>
    dispatchPush sid opts done d ++ workerCalls sid opts done rest
  | WorkerEvent.connError e :: rest =>
    dispatchConnError opts done e ++ workerCalls sid opts done rest
  | WorkerEvent.connClose :: rest => workerCalls sid opts done rest

/-- The tail of `send_message_streaming` once `send_message` returns or
throws: `done` is set, the private subscription is stopped, and
`on_complete` (on success) or `on_error` (on failure) is invoked when the
corresponding callback is set. -/
def resolutionCalls (opts : StreamOpts) : UnaryOutcome → List CoordCall
  | UnaryOutcome.success m =>
    if opts.hasOnComplete then [CoordCall.onComplete m] else []
  | UnaryOutcome.failure e =>
    if opts.hasOnError then [CoordCall.onError e] else []

/-- One interleaved execution of `send_message_streaming`, at the
granularity of whole callback bodies: the worker deliveries that run before
`done` is set, the outcome of the blocking unary send, and the deliveries
racing with teardown that run after `done` is set (the join inside
`stop_sse` places them before the resolution callback). -/
structure StreamTrace where
  preEvents : List WorkerEvent
  outcome : UnaryOutcome
  postEvents : List WorkerEvent
deriving DecidableEq, Repr

/-- Result of a coordinator run: whether the unary send was issued, and the
callback calls in execution order. -/
structure RunResult where
  sendIssued : Bool
  calls : List CoordCall
deriving DecidableEq, Repr

/-- Translation of `Client::send_message_streaming` over one interleaved
execution: the handshake wait is bounded by its 2-second timeout and always
falls through to the unary send, so the send is issued on every trace. -/
def runStreaming (sid : List Char) (opts : StreamOpts) (t : StreamTrace) :
    RunResult :=
  { sendIssued := true,
    calls := workerCalls sid opts false t.preEvents ++
      workerCalls sid opts true t.postEvents ++
      resolutionCalls opts t.outcome }

/-- A completion or error callback — the two "terminal" callbacks of the
three-case streaming contract. -/
def isTerminal : CoordCall → Bool
  | CoordCall.onComplete _ => true
  | CoordCall.onError _ => true
  | CoordCall.onPart _ => false

/-- Number of terminal (completion/error) callback invocations in a call
sequence. -/
def countTerminal (cs : List CoordCall) : Nat := (cs.filter isTerminal).length

/-- A delivery that is the connection-established handshake record. -/
def isHandshake : WorkerEvent → Bool
  | WorkerEvent.push (PushData.record ty _) => ty = str "server.connected"
  | _ => false

/-- Number of push-channel error reports in a delivery sequence. -/
def countConnErrors (evs : List WorkerEvent) : Nat :=
  (evs.filter (fun e => match e with
    | WorkerEvent.connError _ => true
    | _ => false)).length

/-- The part deliveries among a run's callback calls, in order. -/
def partCalls (cs : List CoordCall) : List PartJson :=
  cs.filterMap (fun c => match c with
    | CoordCall.onPart p => some p
    | _ => none)

/-- The part-update records a delivery sequence carries for the target
session, in order — the specification's characterisation of which records
must reach the part callback. -/
def matchingParts (sid : List Char) (evs : List WorkerEvent) : List PartJson :=
  evs.filterMap (fun e => match e with
    | WorkerEvent.push (PushData.record ty (some pj)) =>
      if ty = str "message.part.updated" ∧ pj.sessionID = sid then some pj
      else none
    | _ => none)

/-! ### Chunk-splitting invariance of the parser -/

theorem splitLines_append (a b : List Char) :
    splitLines (a ++ b) =
      ((splitLines a).1 ++ (splitLines ((splitLines a).2 ++ b)).1,
       (splitLines ((splitLines a).2 ++ b)).2) := by
  induction a with
  | nil => simp [splitLines]
  | cons c cs ih =>
    by_cases hc : c = '\n'
    · subst hc
      simp [splitLines, ih]
    · rcases h1 : splitLines cs with ⟨la, ra⟩
      rcases h4 : splitLines (ra ++ b) with ⟨lb, rb⟩
      have ih' : splitLines (cs ++ b) = (la ++ lb, rb) := by
        rw [ih, h1]
        simp [h4]
      rcases la with _ | ⟨l, ls⟩
      · rcases lb with _ | ⟨l2, ls2⟩ <;>
          simp [splitLines, hc, ih', h1, h4]
      · simp [splitLines, hc, ih', h1, h4]

theorem processLines_append (ev : SSEEvent) (l1 l2 : List (List Char)) :
    processLines ev (l1 ++ l2) =
      ((processLines (processLines ev l1).1 l2).1,
       (processLines ev l1).2 ++ (processLines (processLines ev l1).1 l2).2) := by
  induction l1 generalizing ev with
  | nil => simp [processLines]
  | cons l ls ih => simp [processLines, ih]

/-- Feeding two chunks in sequence is the same as feeding their
concatenation: the parser state agrees and the emitted events concatenate. -/
theorem feed_append (p : SSEParser) (a b : List Char) :
    feed p (a ++ b) =
      ((feed (feed p a).1 b).1, (feed p a).2 ++ (feed (feed p a).1 b).2) := by
  simp only [feed, ← List.append_assoc]
  rw [splitLines_append (p.buffer ++ a) b, processLines_append]

theorem splitLines_rest_noNL (l : List Char) : '\n' ∉ (splitLines l).2 := by
  induction l with
  | nil => simp [splitLines]
  | cons c cs ih =>
    by_cases hc : c = '\n'
    · subst hc; simpa [splitLines] using ih
    · rcases h1 : splitLines cs with ⟨la, ra⟩
      have ih' : '\n' ∉ ra := by simpa [h1] using ih
      rcases la with _ | ⟨l', ls⟩
      · simp only [splitLines, if_neg hc, h1]
        intro hm
        rcases List.mem_cons.mp hm with h | h
        · exact hc h.symm
        · exact ih' h
      · simpa [splitLines, hc, h1] using ih'

theorem splitLines_of_noNL (l : List Char) (h : '\n' ∉ l) :
    splitLines l = ([], l) := by
  induction l with
  | nil => simp [splitLines]
  | cons c cs ih =>
    have hc : c ≠ '\n' := fun hcc => h (hcc ▸ List.mem_cons_self c cs)
    have hcs : '\n' ∉ cs := fun hm => h (List.mem_cons_of_mem c hm)
    simp [splitLines, if_neg hc, ih hcs]

theorem feed_nil_of_noNL (p : SSEParser) (h : '\n' ∉ p.buffer) :
    feed p [] = (p, []) := by
  simp [feed, splitLines_of_noNL p.buffer h, processLines]

theorem feed_buffer_noNL (p : SSEParser) (a : List Char) :
    '\n' ∉ (feed p a).1.buffer := by
  simp only [feed]
  exact splitLines_rest_noNL (p.buffer ++ a)

theorem feedAll_eq_feed_flatten (p : SSEParser) (chunks : List (List Char))
    (h : '\n' ∉ p.buffer) :
    feedAll p chunks = feed p chunks.flatten := by
  induction chunks generalizing p with
  | nil => simp [feedAll, feed_nil_of_noNL p h]
  | cons c cs ih =>
    have := ih (feed p c).1 (feed_buffer_noNL p c)
    simp only [feedAll, this, List.flatten_cons, feed_append p c cs.flatten]

/-- C2: for every byte sequence and every way of splitting it into chunks,
feeding the chunks one call at a time to `SSEParser::feed` emits exactly the
same records — same event, data, id and retry values, in the same order —
and leaves the parser in the same state, as feeding the whole sequence in a
single call. -/
theorem sse_feed_chunking_invariant (chunks : List (List Char)) :
    feedAll initParser chunks = feed initParser chunks.flatten :=
  feedAll_eq_feed_flatten initParser chunks (by simp [initParser])

/-! ### Behaviour of the parser on particular line shapes -/

theorem splitAtColon_no_colon (f : List Char) (h : ':' ∉ f) :
    splitAtColon f = (f, none) := by
  induction f with
  | nil => rfl
  | cons c cs ih =>
    have hc : ¬c = ':' := fun hcc => h (hcc ▸ List.mem_cons_self c cs)
    have hcs : ':' ∉ cs := fun hm => h (List.mem_cons_of_mem c hm)
    simp [splitAtColon, hc, ih hcs]

/-- C8: feeding the lines `data: a`, `data: b` and a blank line emits
exactly one record whose data is `a\nb` — successive data lines are joined
with one newline and one trailing newline is stripped at emission — and a
blank line with no pending data and no pending type emits nothing and
changes nothing. -/
theorem sse_data_join_and_blank_noop :
    (feed initParser (str "data: a\ndata: b\n\n")).2 =
      [⟨[], str "a\nb", [], 0⟩] ∧
    ∀ (i : List Char) (r : Int),
      processLine ⟨[], [], i, r⟩ [] = (⟨[], [], i, r⟩, []) := by
  constructor
  · decide
  · intro i r
    simp [processLine, stripCR, dispatchBlank]

/-- C10: a non-empty non-comment line with no colon is treated as a field
name with an empty value: the bare line `data` appends an empty segment to
the pending data, preceded by a newline exactly when the data is already
non-empty, and a bare unrecognized field name leaves the pending record and
the output unchanged. -/
theorem sse_bare_field_lines :
    (∀ ev : SSEEvent, processLine ev (str "data") =
      ({ ev with data := if ev.data = [] then [] else ev.data ++ ['\n'] }, [])) ∧
    (∀ (ev : SSEEvent) (f : List Char), stripCR f = f → f ≠ [] → ':' ∉ f →
      f ≠ str "event" → f ≠ str "data" → f ≠ str "id" → f ≠ str "retry" →
      processLine ev f = (ev, [])) := by
  constructor
  · intro ev
    rfl
  · intro ev f hcr hne hcol h1 h2 h3 h4
    cases f with
    | nil => cases hne rfl
    | cons c cs =>
      have hc : ¬c = ':' := fun hcc => hcol (hcc ▸ List.mem_cons_self c cs)
      have hsp : splitAtColon (c :: cs) = (c :: cs, none) :=
        splitAtColon_no_colon _ hcol
      simp only [processLine, hcr]
      split
      · simp_all
      · simp_all
      · simp [hsp, applyField, h1, h2, h3, h4]

/-- C10 witness: the general part of the statement applied to the bare
unrecognized field line `foo` and to the bare `data` line, with an empty
pending record. -/
theorem sse_bare_field_lines_witness :
    processLine ⟨[], [], [], 0⟩ (str "data") = (⟨[], [], [], 0⟩, []) ∧
    processLine ⟨[], [], [], 0⟩ (str "foo") = (⟨[], [], [], 0⟩, []) := by
  constructor
  · have h := sse_bare_field_lines.1 ⟨[], [], [], 0⟩
    simpa using h
  · exact sse_bare_field_lines.2 ⟨[], [], [], 0⟩ (str "foo") (by decide)
      (by decide) (by decide) (by decide) (by decide) (by decide) (by decide)

/-! ### Blocking stream FIFO drain -/

theorem pushEvent_foldl_open {α : Type} (es : List α) (q : List α) :
    es.foldl pushEvent (⟨q, false⟩ : EvState α) = ⟨q ++ es, false⟩ := by
  induction es generalizing q with
  | nil => simp
  | cons e es ih =>
    simpa [pushEvent] using ih (q ++ [e])

theorem consume_closed {α : Type} (es : List α) :
    consume (⟨es, true⟩ : EvState α) (es.length + 1) =
      (es.map some ++ [none], ⟨[], true⟩) := by
  induction es with
  | nil => simp [consume, nextEvent]
  | cons e es ih =>
    rw [show consume (⟨e :: es, true⟩ : EvState α) ((e :: es).length + 1) =
        (some e :: (consume (⟨es, true⟩ : EvState α) (es.length + 1)).1,
          (consume (⟨es, true⟩ : EvState α) (es.length + 1)).2) from rfl, ih]
    simp

/-- C3: after N items are pushed into the open stream and `close()` is
called, a consumer calling `next()` repeatedly receives all N items in push
order and only then the end-of-stream sentinel; moreover `next()` never
returns the sentinel while an item remains queued, whatever the closed
flag. -/
theorem event_stream_fifo_drain {α : Type} (es : List α) :
    consume (closeStream (es.foldl pushEvent (⟨[], false⟩ : EvState α)))
        (es.length + 1) =
      (es.map some ++ [none], ⟨[], true⟩) ∧
    ∀ (e : α) (rest : List α) (c : Bool),
      nextEvent (⟨e :: rest, c⟩ : EvState α) = (some e, ⟨rest, c⟩) := by
  constructor
  · rw [pushEvent_foldl_open]
    simpa [closeStream] using consume_closed es
  · intro e rest c
    rfl

/-! ### Supervisor: stop idempotence -/

/-- C7: `Server::stop` is idempotent — after a first call returns, any
subsequent call (including the one the destructor performs during teardown)
performs no process operations and leaves the state unchanged; being a total
function of the model, it never throws. -/
theorem server_stop_idempotent (s : ServerState) :
    serverStop (serverStop s).1 = ((serverStop s).1, []) := by
  rcases s with ⟨_ | pm⟩
  · rfl
  · by_cases h : pm.phase = ProcPhase.running
    · simp [serverStop, h]
    · simp [serverStop, h]

/-! ### Transport: start_sse return value -/

/-- C9: `HttpTransport::start_sse` returns `true` for every path and header
list; a failure to connect or stream is never reported through the return
value — on the worker, a failing connection results in `on_error` followed
by `on_close`, after whatever records were already parsed. -/
theorem start_sse_always_true (c : SSEControl) (path : List Char)
    (headers : List (List Char × List Char)) (chunks : List (List Char))
    (e : List Char) :
    (startSSE c path headers).2 = true ∧
    runSSE true chunks (ConnOutcome.failure e) =
      ((feedAll initParser chunks).2.map SSECall.onEvent) ++
        [SSECall.onError e, SSECall.onClose] := by
  constructor
  · rfl
  · simp [runSSE]

/-! ### Supervisor: readiness detection -/

theorem spawnLoop_no_ready (opts : SpawnOpts) (ls : List (List Char))
    (acc : List Char) (code : Int)
    (h : ∀ l ∈ ls, lineReady opts.port l = false) :
    spawnLoop opts acc (ls.map SpawnObs.line ++ [SpawnObs.procExit code]) =
      SpawnResult.exitedDuringStartup code (acc ++ ls.flatten) := by
  induction ls generalizing acc with
  | nil => simp [spawnLoop]
  | cons l ls ih =>
    have hl := h l (List.mem_cons_self l ls)
    have hrest : ∀ l2 ∈ ls, lineReady opts.port l2 = false :=
      fun l2 hm => h l2 (List.mem_cons_of_mem l hm)
    have hu : urlSearch l = none := by
      rcases hus : urlSearch l with _ | u
      · rfl
      · rw [lineReady, hus] at hl
        simp at hl
    have hpt : portTokenMatch opts.port l = false := by
      rw [lineReady, hu] at hl
      simpa using hl
    simp only [List.map_cons, List.cons_append]
    simp [spawnLoop, hu, hpt]
    rw [ih (acc ++ l) hrest]
    simp [List.append_assoc]

/-- C5: when the process produces only non-readiness lines and then exits,
`Server::spawn` fails with the `ProcessExitedDuringStartup` error carrying
the exit code and the accumulated output — it neither returns a `Server`
nor reports a startup timeout. -/
theorem spawn_exit_during_startup (opts : SpawnOpts) (ls : List (List Char))
    (code : Int) (h : ∀ l ∈ ls, lineReady opts.port l = false) :
    spawnLoop opts [] (ls.map SpawnObs.line ++ [SpawnObs.procExit code]) =
      SpawnResult.exitedDuringStartup code ls.flatten := by
  simpa using spawnLoop_no_ready opts ls [] code h

/-- C5 witness: a single non-readiness output line followed by the process
exiting with code 3. -/
theorem spawn_exit_during_startup_witness :
    (∀ l ∈ [str "starting opencode"],
      lineReady (⟨str "127.0.0.1", 4096⟩ : SpawnOpts).port l = false) ∧
    spawnLoop ⟨str "127.0.0.1", 4096⟩ []
        ([str "starting opencode"].map SpawnObs.line ++ [SpawnObs.procExit 3]) =
      SpawnResult.exitedDuringStartup 3 ([str "starting opencode"].flatten) :=
  ⟨by decide, spawn_exit_during_startup ⟨str "127.0.0.1", 4096⟩
    [str "starting opencode"] 3 (by decide)⟩

/-- C6: with requested port 0, the output line
`Server listening on http://127.0.0.1:51234` is detected as readiness via
the address-announcement pattern, and the detected port becomes 51234,
re-extracted from the announced URL. -/
theorem spawn_port_reextraction :
    spawnLoop ⟨str "127.0.0.1", 0⟩ []
        [SpawnObs.line (str "Server listening on http://127.0.0.1:51234")] =
      SpawnResult.ok ReadyVia.urlPattern (str "http://127.0.0.1:51234") 51234
        (str "127.0.0.1") := by
  decide

/-! ### Coordinator: callback accounting -/

theorem workerCalls_done (sid : List Char) (opts : StreamOpts)
    (evs : List WorkerEvent) : workerCalls sid opts true evs = [] := by
  induction evs with
  | nil => rfl
  | cons ev rest ih =>
    cases ev with
    | push d => simp [workerCalls, dispatchPush, ih]
    | connError e => simp [workerCalls, dispatchConnError, ih]
    | connClose => simpa [workerCalls] using ih

theorem countTerminal_append (a b : List CoordCall) :
    countTerminal (a ++ b) = countTerminal a + countTerminal b := by
  simp [countTerminal, List.filter_append]

theorem countTerminal_dispatchPush (sid : List Char) (opts : StreamOpts)
    (d : PushData) : countTerminal (dispatchPush sid opts false d) = 0 := by
  rcases d with _ | ⟨ty, _ | pj⟩
  · rfl
  · simp only [dispatchPush]
    split_ifs <;> rfl
  · simp only [dispatchPush]
    split_ifs <;> rfl

theorem countConnErrors_cons_push (d : PushData) (rest : List WorkerEvent) :
    countConnErrors (WorkerEvent.push d :: rest) = countConnErrors rest := by
  simp [countConnErrors, List.filter_cons]

theorem countConnErrors_cons_err (e : List Char) (rest : List WorkerEvent) :
    countConnErrors (WorkerEvent.connError e :: rest) =
      countConnErrors rest + 1 := by
  simp [countConnErrors, List.filter_cons]

theorem countConnErrors_cons_close (rest : List WorkerEvent) :
    countConnErrors (WorkerEvent.connClose :: rest) = countConnErrors rest := by
  simp [countConnErrors, List.filter_cons]

theorem countTerminal_workerCalls_pre (sid : List Char) (opts : StreamOpts)
    (evs : List WorkerEvent) (he : opts.hasOnError = true) :
    countTerminal (workerCalls sid opts false evs) = countConnErrors evs := by
  induction evs with
  | nil => rfl
  | cons ev rest ih =>
    cases ev with
    | push d =>
      simp only [workerCalls, countTerminal_append,
        countTerminal_dispatchPush, ih, countConnErrors_cons_push]
      omega
    | connError e =>
      have hd : dispatchConnError opts false e = [CoordCall.onError e] := by
        simp [dispatchConnError, he]
      have h1 : countTerminal [CoordCall.onError e] = 1 := rfl
      simp only [workerCalls, countTerminal_append, hd, ih,
        countConnErrors_cons_err, h1]
      omega
    | connClose =>
      simp only [workerCalls, ih, countConnErrors_cons_close]

theorem countTerminal_resolution (opts : StreamOpts) (o : UnaryOutcome)
    (hc : opts.hasOnComplete = true) (he : opts.hasOnError = true) :
    countTerminal (resolutionCalls opts o) = 1 := by
  cases o <;> simp [resolutionCalls, hc, he, countTerminal, isTerminal]

/-- C1 as stated is false on the code: on the trace below — no handshake
record ever arrives and the push channel reports an error before the unary
call resolves — the caller's error callback fires at the error report and
the completion callback fires at the resolution: two terminal callbacks,
not exactly one. -/
theorem send_streaming_exactly_one_counterexample :
    (([WorkerEvent.connError (str "boom")] : List WorkerEvent).all
        (fun ev => !isHandshake ev) = true) ∧
    countTerminal (runStreaming (str "s") ⟨true, true, true⟩
        ⟨[WorkerEvent.connError (str "boom")], UnaryOutcome.success (str "m"),
          []⟩).calls ≠ 1 ∧
    countTerminal (runStreaming (str "s") ⟨true, true, true⟩
        ⟨[WorkerEvent.connError (str "boom")], UnaryOutcome.success (str "m"),
          []⟩).calls = 2 := by
  refine ⟨by decide, by decide, by decide⟩

/-- C1 (amended): over every interleaved execution with completion and
error callbacks installed, the unary send is issued (even when the
handshake never arrives within the 2-second wait), and the number of
terminal completion/error callback invocations equals one — fired at the
resolution of the unary call — plus one error-callback invocation for each
push-channel error reported before the resolution; nothing terminal fires
after the resolution. -/
theorem send_streaming_terminal_count (sid : List Char) (opts : StreamOpts)
    (t : StreamTrace) (hc : opts.hasOnComplete = true)
    (he : opts.hasOnError = true) :
    (runStreaming sid opts t).sendIssued = true ∧
    countTerminal (runStreaming sid opts t).calls =
      1 + countConnErrors t.preEvents := by
  refine ⟨rfl, ?_⟩
  simp only [runStreaming]
  rw [countTerminal_append, countTerminal_append, workerCalls_done,
    countTerminal_workerCalls_pre sid opts t.preEvents he,
    countTerminal_resolution opts t.outcome hc he]
  simp [countTerminal]
  omega

/-- C1 (amended) witness at a concrete trace: one pre-resolution
push-channel error and a failing unary call yield two terminal callbacks,
and a post-`done` record yields none. -/
theorem send_streaming_terminal_count_witness :
    (⟨true, true, true⟩ : StreamOpts).hasOnComplete = true ∧
    (⟨true, true, true⟩ : StreamOpts).hasOnError = true ∧
    ((runStreaming (str "s") ⟨true, true, true⟩
        ⟨[WorkerEvent.connError (str "x")], UnaryOutcome.failure (str "f"),
          [WorkerEvent.push PushData.malformed]⟩).sendIssued = true ∧
      countTerminal (runStreaming (str "s") ⟨true, true, true⟩
          ⟨[WorkerEvent.connError (str "x")], UnaryOutcome.failure (str "f"),
            [WorkerEvent.push PushData.malformed]⟩).calls =
        1 + countConnErrors [WorkerEvent.connError (str "x")]) :=
  ⟨rfl, rfl, send_streaming_terminal_count (str "s") ⟨true, true, true⟩
    ⟨[WorkerEvent.connError (str "x")], UnaryOutcome.failure (str "f"),
      [WorkerEvent.push PushData.malformed]⟩ rfl rfl⟩

/-! ### Coordinator: part-update filtering -/

theorem partCalls_append (a b : List CoordCall) :
    partCalls (a ++ b) = partCalls a ++ partCalls b := by
  simp [partCalls]

theorem matchingParts_cons_some (sid ty : List Char) (pj : PartJson)
    (rest : List WorkerEvent) :
    matchingParts sid (WorkerEvent.push (PushData.record ty (some pj)) :: rest) =
      (if ty = str "message.part.updated" ∧ pj.sessionID = sid
        then [pj] else []) ++ matchingParts sid rest := by
  by_cases hcond : ty = str "message.part.updated" ∧ pj.sessionID = sid <;>
    simp [matchingParts, List.filterMap_cons, hcond]

theorem matchingParts_cons_none (sid ty : List Char) (rest : List WorkerEvent) :
    matchingParts sid (WorkerEvent.push (PushData.record ty none) :: rest) =
      matchingParts sid rest := by
  simp [matchingParts, List.filterMap_cons]

theorem matchingParts_cons_malformed (sid : List Char) (rest : List WorkerEvent) :
    matchingParts sid (WorkerEvent.push PushData.malformed :: rest) =
      matchingParts sid rest := by
  simp [matchingParts, List.filterMap_cons]

theorem matchingParts_cons_err (sid e : List Char) (rest : List WorkerEvent) :
    matchingParts sid (WorkerEvent.connError e :: rest) =
      matchingParts sid rest := by
  simp [matchingParts, List.filterMap_cons]

theorem matchingParts_cons_close (sid : List Char) (rest : List WorkerEvent) :
    matchingParts sid (WorkerEvent.connClose :: rest) =
      matchingParts sid rest := by
  simp [matchingParts, List.filterMap_cons]

theorem dispatchPush_record_some (sid : List Char) (opts : StreamOpts)
    (ty : List Char) (pj : PartJson) (hp : opts.hasOnPart = true) :
    dispatchPush sid opts false (PushData.record ty (some pj)) =
      if ty = str "message.part.updated" ∧ pj.sessionID = sid
        then [CoordCall.onPart pj] else [] := by
  by_cases h1 : ty = str "server.connected"
  · subst h1
    have hne : ¬(str "server.connected" = str "message.part.updated") := by
      decide
    simp [dispatchPush, hne]
  · by_cases h2 : ty = str "message.part.updated"
    · subst h2
      by_cases h3 : pj.sessionID = sid
      · simp [dispatchPush, h1, h3, hp]
      · simp [dispatchPush, h1, h3]
    · simp [dispatchPush, h1, h2]

theorem partCalls_workerCalls_pre (sid : List Char) (opts : StreamOpts)
    (evs : List WorkerEvent) (hp : opts.hasOnPart = true) :
    partCalls (workerCalls sid opts false evs) = matchingParts sid evs := by
  induction evs with
  | nil => rfl
  | cons ev rest ih =>
    cases ev with
    | push d =>
      rcases d with _ | ⟨ty, _ | pj⟩
      · simp only [workerCalls, partCalls_append, ih,
          matchingParts_cons_malformed]
        simp [dispatchPush, partCalls]
      · have hd : dispatchPush sid opts false (PushData.record ty none) = [] := by
          by_cases h1 : ty = str "server.connected" <;>
            by_cases h2 : ty = str "message.part.updated" <;>
              simp [dispatchPush, h1, h2]
        simp only [workerCalls, partCalls_append, ih, hd,
          matchingParts_cons_none]
        simp [partCalls]
      · simp only [workerCalls, partCalls_append, ih,
          dispatchPush_record_some sid opts ty pj hp,
          matchingParts_cons_some]
        by_cases hcond : ty = str "message.part.updated" ∧ pj.sessionID = sid <;>
          simp [hcond, partCalls]
    | connError e =>
      have hd : partCalls (dispatchConnError opts false e) = [] := by
        by_cases hoe : opts.hasOnError = true <;>
          simp [dispatchConnError, hoe, partCalls]
      simp only [workerCalls, partCalls_append, ih, hd,
        matchingParts_cons_err]
      simp
    | connClose =>
      simp only [workerCalls, ih, matchingParts_cons_close]

theorem partCalls_resolution (opts : StreamOpts) (o : UnaryOutcome) :
    partCalls (resolutionCalls opts o) = [] := by
  cases o <;> simp only [resolutionCalls] <;> split_ifs <;> rfl

/-- C4: with a part callback installed, the parts delivered to it during a
send-and-stream operation are exactly those carried by
`message.part.updated` records whose embedded session id equals the target
session, among the deliveries made before `done` is set, in order; records
of any other type or session are never delivered, and records arriving
after `done` is set are discarded without invoking the callback. -/
theorem send_streaming_part_filter (sid : List Char) (opts : StreamOpts)
    (t : StreamTrace) (hp : opts.hasOnPart = true) :
    partCalls (runStreaming sid opts t).calls =
      matchingParts sid t.preEvents := by
  simp only [runStreaming]
  rw [partCalls_append, partCalls_append, workerCalls_done,
    partCalls_workerCalls_pre sid opts t.preEvents hp,
    partCalls_resolution]
  simp [partCalls]

/-- C4 witness on a concrete trace: the matching part-update is delivered;
a part-update for a different session and a post-`done` part-update are
not. -/
theorem send_streaming_part_filter_witness :
    (⟨true, true, true⟩ : StreamOpts).hasOnPart = true ∧
    partCalls (runStreaming (str "s1") ⟨true, true, true⟩
        ⟨[WorkerEvent.push (PushData.record (str "message.part.updated")
            (some ⟨str "s1", str "p1"⟩)),
          WorkerEvent.push (PushData.record (str "message.part.updated")
            (some ⟨str "s2", str "p2"⟩))],
          UnaryOutcome.success (str "m"),
          [WorkerEvent.push (PushData.record (str "message.part.updated")
            (some ⟨str "s1", str "p3"⟩))]⟩).calls =
      matchingParts (str "s1")
        [WorkerEvent.push (PushData.record (str "message.part.updated")
            (some ⟨str "s1", str "p1"⟩)),
          WorkerEvent.push (PushData.record (str "message.part.updated")
            (some ⟨str "s2", str "p2"⟩))] :=
  ⟨rfl, send_streaming_part_filter (str "s1") ⟨true, true, true⟩
    ⟨[WorkerEvent.push (PushData.record (str "message.part.updated")
        (some ⟨str "s1", str "p1"⟩)),
      WorkerEvent.push (PushData.record (str "message.part.updated")
        (some ⟨str "s2", str "p2"⟩))],
      UnaryOutcome.success (str "m"),
      [WorkerEvent.push (PushData.record (str "message.part.updated")
        (some ⟨str "s1", str "p3"⟩))]⟩ rfl⟩

end Opencode
